import Mathlib

/-!
Shallow embedding of the Colorado job-location resolver
(`src/app.py`, `src/utils/location_matcher.py`).

Strings are modelled as Lean `String`/`List Char` with an ASCII reading of
Python's regex character classes (`\w`, `\s`).  Coordinates are modelled as
integers scaled by 100 (39.74 becomes 3974): the claims only use presence
and equality of coordinates, never float arithmetic.  The fuzzywuzzy scorer
`fuzz.token_sort_ratio` is embedded through the python-Levenshtein formula
`intr(100 * (lensum - dist) / lensum)` with substitution cost 2, which equals
round-half-even of `200 * lcs / lensum`.
-/

namespace JobTracker

/-- Python regex `\w` (ASCII reading): alphanumeric or underscore. -/
def isWordChar (c : Char) : Bool := c.isAlphanum || c == '_'

/-- Python `str` whitespace / regex `\s` (ASCII reading). -/
def isPySpace (c : Char) : Bool :=
  c == ' ' || c == '\t' || c == '\n' || c == '\r' || c == '\x0b' || c == '\x0c'

/-- ASCII upper/lower case pairs, used by `str.lower()` and `str.title()`. -/
def caseTable : List (Char × Char) :=
  [('A','a'),('B','b'),('C','c'),('D','d'),('E','e'),('F','f'),('G','g'),
   ('H','h'),('I','i'),('J','j'),('K','k'),('L','l'),('M','m'),('N','n'),
   ('O','o'),('P','p'),('Q','q'),('R','r'),('S','s'),('T','t'),('U','u'),
   ('V','v'),('W','w'),('X','x'),('Y','y'),('Z','z')]

/-- `str.lower()` on one character (ASCII model). -/
def lowerChar (c : Char) : Char :=
  match caseTable.find? (fun p => p.1 == c) with
  | some p => p.2
  | none => c

/-- Uppercasing on one character (ASCII model), for `str.title()`. -/
def upperChar (c : Char) : Char :=
  match caseTable.find? (fun p => p.2 == c) with
  | some p => p.1
  | none => c

def lowerList (l : List Char) : List Char := l.map lowerChar

/-- `str.lower()`. -/
def pyLower (s : String) : String := ⟨lowerList s.data⟩

/-- `str.strip()` on a char list: drop whitespace at both ends. -/
def pyStripList (l : List Char) : List Char :=
  ((l.dropWhile isPySpace).reverse.dropWhile isPySpace).reverse

/-- `str.strip()`. -/
def pyStrip (s : String) : String := ⟨pyStripList s.data⟩

/-- `re.sub(r'\s+', ' ', _)`: each maximal whitespace run becomes one space. -/
def collapseWs : List Char → List Char
  | [] => []
  | [c] => if isPySpace c then [' '] else [c]
  | c :: d :: rest =>
    if isPySpace c && isPySpace d then collapseWs (d :: rest)
    else (if isPySpace c then ' ' else c) :: collapseWs (d :: rest)

/-- `re.sub(r'[^\w\s]', ' ', _)`: non-word, non-space characters become spaces. -/
def subPunct (l : List Char) : List Char :=
  l.map (fun c => if isWordChar c || isPySpace c then c else ' ')

/-- `re.sub(r'\W', ' ', _)` (fuzzywuzzy's full_process replacement):
everything that is not a word character becomes a space. -/
def subNonWord (l : List Char) : List Char :=
  l.map (fun c => if isWordChar c then c else ' ')

/-- `str.split()` helper: accumulates the current (reversed) token. -/
def splitWsAux : List Char → List Char → List (List Char)
  | [], acc => if acc.isEmpty then [] else [acc.reverse]
  | c :: rest, acc =>
    if isPySpace c then
      if acc.isEmpty then splitWsAux rest [] else acc.reverse :: splitWsAux rest []
    else splitWsAux rest (c :: acc)

/-- `str.split()` with no argument: split on whitespace runs, no empty tokens. -/
def splitWs (l : List Char) : List (List Char) := splitWsAux l []

/-- Python code-point comparison of strings (used by `sorted`). -/
def listCharLt : List Char → List Char → Bool
  | [], [] => false
  | [], _ :: _ => true
  | _ :: _, [] => false
  | a :: as, b :: bs => if a.val < b.val then true else if a.val == b.val then listCharLt as bs else false

def insertSorted (x : List Char) : List (List Char) → List (List Char)
  | [] => [x]
  | y :: ys => if listCharLt x y then x :: y :: ys else y :: insertSorted x ys

/-- `sorted(tokens)`: stable insertion sort by code points. -/
def sortTokens : List (List Char) → List (List Char)
  | [] => []
  | x :: xs => insertSorted x (sortTokens xs)

/-- `u" ".join(tokens)`. -/
def joinSpace : List (List Char) → List Char
  | [] => []
  | [t] => t
  | t :: ts => t ++ ' ' :: joinSpace ts

/-- One row of the longest-common-subsequence dynamic program.
`prev` is the previous row (aligned with prefixes of `b`, head = diagonal),
`left` is the cell just computed on the current row. -/
def lcsNewRow (ca : Char) : List Char → List Nat → Nat → List Nat
  | [], _, _ => []
  | _ :: _, [], _ => []
  | cb :: bs, diag :: rest, left =>
    let cell := if ca == cb then diag + 1 else max left (rest.headD 0)
    cell :: lcsNewRow ca bs rest cell

/-- Length of the longest common subsequence of two char lists. -/
def lcs (a b : List Char) : Nat :=
  (a.foldl (fun prev ca => 0 :: lcsNewRow ca b prev 0) (List.replicate (b.length + 1) 0)).getLastD 0

/-- `utils.intr` = `int(round(_))` on the exact rational `n / d`:
round half to even, matching Python's `round` (exact halves are binary-exact
floats, so float rounding agrees with the rational rounding). -/
def roundHalfEven (n d : Nat) : Nat :=
  let q := n / d
  let r := n % d
  if 2 * r < d then q else if d < 2 * r then q + 1 else if q % 2 == 0 then q else q + 1

/-- `fuzz.ratio` (python-Levenshtein backend), with fuzzywuzzy's
`check_for_equivalence` and `check_empty_string` decorators:
equal strings score 100, otherwise an empty side scores 0, otherwise
`intr(100 * 2 * lcs / lensum)` (substitution-cost-2 edit distance). -/
def pyScore (a b : List Char) : Nat :=
  if a == b then 100
  else if a.isEmpty || b.isEmpty then 0
  else roundHalfEven (200 * lcs a b) (a.length + b.length)

/-- fuzzywuzzy `utils.full_process`: `\W` to space, lowercase, strip. -/
def fullProcess (s : String) : String :=
  ⟨pyStripList (lowerList (subNonWord s.data))⟩

/-- fuzzywuzzy `fuzz._process_and_sort`: full_process, split, sort, rejoin. -/
def processAndSort (s : String) : List Char :=
  joinSpace (sortTokens (splitWs (fullProcess s).data))

/-- `fuzz.token_sort_ratio(s1, s2)` (full_process=True). -/
def tokenSortScore (s1 s2 : String) : Nat :=
  pyScore (processAndSort s1) (processAndSort s2)

/-- Python `max(pairs, key=score)`: first element of maximal score wins
(later elements replace only on strictly greater score). -/
def maxByFirst : List (String × Nat) → Option (String × Nat)
  | [] => none
  | p :: rest => some (rest.foldl (fun best q => if best.2 < q.2 then q else best) p)

/-- `process.extractOne(query, choices, scorer=fuzz.token_sort_ratio)` with the
default processor `utils.full_process` and score_cutoff 0: the query is
full_processed once, each raw choice is scored by the token-sort scorer, the
first maximal `(choice, score)` pair is returned; `None` on empty choices. -/
def extractOne (query : String) (choices : List String) : Option (String × Nat) :=
  maxByFirst (choices.map (fun c => (c, tokenSortScore (fullProcess query) c)))

/-- Does `s` start with `w` (with `w` nonempty), with a word boundary after
the match?  Returns the remainder after the match. -/
def tryWordAt (w : List Char) (s : List Char) : Option (List Char) :=
  match w with
  | [] => none
  | _ :: _ =>
    let rest := s.drop w.length
    if s.take w.length == w && (rest.headD ' ' |> isWordChar) == false then some rest else none

/-- First alternative (in regex alternation order) matching at this position. -/
def tryFirstWord (ws : List (List Char)) (s : List Char) : Option Nat :=
  match ws with
  | [] => none
  | w :: rest =>
    match tryWordAt w s with
    | some _ => some w.length
    | none => tryFirstWord rest s

/-- Scanner for `re.sub(r'\b(w1|w2|...)\b', '', s)`: walk the string keeping
track of whether the previous character was a word character (for the leading
`\b`; every alternative starts with a word character) and of how many matched
characters remain to be dropped. -/
def rwGo (ws : List (List Char)) : List Char → Bool → Nat → List Char
  | [], _, _ => []
  | c :: rest, _, skip + 1 => rwGo ws rest (isWordChar c) skip
  | c :: rest, prevW, 0 =>
    if prevW then c :: rwGo ws rest (isWordChar c) 0
    else
      match tryFirstWord ws (c :: rest) with
      | some n => rwGo ws rest (isWordChar c) (n - 1)
      | none => c :: rwGo ws rest (isWordChar c) 0

/-- `re.sub(r'\b(...)\b', '', s)` with word alternatives `ws`. -/
def removeWords (ws : List String) (l : List Char) : List Char :=
  rwGo (ws.map String.data) l false 0

/-- Alternatives of `r'\b(co|colorado|usa|us|united states)\b'` in order. -/
def stateWords : List String := ["co", "colorado", "usa", "us", "united states"]

/-- Alternatives of `r'\b(remote|hybrid|onsite|office|downtown|metro|area)\b'`. -/
def noiseWords : List String :=
  ["remote", "hybrid", "onsite", "office", "downtown", "metro", "area"]

/-- `LocationMatcher._clean_location` on an actual string (the `pd.isna`
branch is handled by the `Option String` wrapper `cleanLocation`):
guard for empty / whitespace-only, then lowercase+strip, strip the state
words, punctuation to spaces, collapse whitespace, strip. -/
def cleanLocationStr (s : String) : String :=
  if s == "" || pyStrip s == "" then ""
  else
    ⟨pyStripList (collapseWs (subPunct (removeWords stateWords
        (pyStripList (lowerList s.data)))))⟩

/-- `LocationMatcher._clean_location` on a possibly-missing value. -/
def cleanLocation (loc : Option String) : String :=
  match loc with
  | none => ""
  | some s => cleanLocationStr s

/-- `LocationMatcher._extract_city_from_location`: clean, split on `[,;]` and
take the first part, strip, remove noise words, strip. -/
def extractCityFromLocation (s : String) : String :=
  let cleaned := cleanLocationStr s
  let firstPart := pyStripList (cleaned.data.takeWhile (fun c => c != ',' && c != ';'))
  ⟨pyStripList (removeWords noiseWords firstPart)⟩

/-- Python `dict` insertion: overwrite the value in place if the key exists,
otherwise append (insertion order preserved). -/
def pyDictInsert (d : List (String × String)) (k v : String) : List (String × String) :=
  if (d.find? (fun p => p.1 == k)).isSome then
    d.map (fun p => if p.1 == k then (k, v) else p)
  else d ++ [(k, v)]

/-- Python `dict` key lookup. -/
def pyDictGet (d : List (String × String)) (k : String) : Option String :=
  (d.find? (fun p => p.1 == k)).map (·.2)

/-- `s.replace(' ', '')`. -/
def removeSpaces (s : String) : String := ⟨s.data.filter (fun c => c != ' ')⟩

/-- `LocationMatcher._create_city_variations`: for each city add its lowercase
name and the lowercase name without spaces, plus the hand-coded abbreviations
for the specific cities tested by the `if`/`elif` chain. -/
def addCityVariations (d : List (String × String)) (city : String) : List (String × String) :=
  let d := pyDictInsert d (pyLower city) city
  let d := pyDictInsert d (removeSpaces (pyLower city)) city
  if city == "Colorado Springs" then
    let d := pyDictInsert d "colo springs" city
    let d := pyDictInsert d "colorado spring" city
    let d := pyDictInsert d "co springs" city
    pyDictInsert d "springs" city
  else if city == "Fort Collins" then
    let d := pyDictInsert d "ft collins" city
    let d := pyDictInsert d "fort collin" city
    pyDictInsert d "ft collin" city
  else if city == "Grand Junction" then
    let d := pyDictInsert d "grand jct" city
    let d := pyDictInsert d "grand jnct" city
    pyDictInsert d "gj" city
  else if city == "Castle Rock" then
    let d := pyDictInsert d "castle rock" city
    pyDictInsert d "castlerock" city
  else if city == "Highlands Ranch" then
    let d := pyDictInsert d "highlands ranch" city
    pyDictInsert d "hr" city
  else if city == "Security-Widefield" then
    let d := pyDictInsert d "security" city
    pyDictInsert d "widefield" city
  else d

def createCityVariations (cityNames : List String) : List (String × String) :=
  cityNames.foldl addCityVariations []

/-- The state of a `LocationMatcher` after `__init__`: the `City` column and
the variations dictionary. -/
structure Matcher where
  cityNames : List String
  variations : List (String × String)
deriving DecidableEq

/-- `LocationMatcher.__init__(cities_df)`. -/
def mkMatcher (cityNames : List String) : Matcher :=
  ⟨cityNames, createCityVariations cityNames⟩

/-- Second fuzzy stage of `match_location_to_city`: fuzzy match against the
variation keys; on success resolve the winning key through the dictionary. -/
def matchVariationsFuzzy (m : Matcher) (cityPart : String) (t : Int) : Option String × Nat :=
  match extractOne cityPart (m.variations.map (·.1)) with
  | some (mv, score) =>
    if (score : Int) ≥ t then
      match pyDictGet m.variations mv with
      | some city => (some city, score)
      | none => (none, 0)
    else (none, 0)
  | none => (none, 0)

/-- Body of `match_location_to_city` after the `pd.isna`/empty guard:
extract the city part, exact variation lookup (score 100), fuzzy match
against canonical names, then fuzzy match against variation keys. -/
def matchCityCore (m : Matcher) (s : String) (t : Int) : Option String × Nat :=
  match pyDictGet m.variations (extractCityFromLocation s) with
  | some city => (some city, 100)
  | none =>
    match extractOne (extractCityFromLocation s) m.cityNames with
    | some (best, score) =>
      if (score : Int) ≥ t then (some best, score)
      else matchVariationsFuzzy m (extractCityFromLocation s) t
    | none => matchVariationsFuzzy m (extractCityFromLocation s) t

/-- `LocationMatcher.match_location_to_city(location, fuzzy_threshold)`. -/
def matchLocationToCity (m : Matcher) (loc : Option String) (t : Int) : Option String × Nat :=
  match loc with
  | none => (none, 0)
  | some s => if s == "" then (none, 0) else matchCityCore m s t

/-- The six-city fallback catalog `DEFAULT_CITIES` of `src/app.py`
(coordinates scaled by 100). -/
def defaultCityNames : List String :=
  ["Denver", "Colorado Springs", "Aurora", "Fort Collins", "Lakewood", "Boulder"]

def defaultMatcher : Matcher := mkMatcher defaultCityNames

/-! ### The app-level pipeline (`src/app.py`) -/

/-- A pandas cell: missing (`NaN`/`None`), a string, or a number
(coordinates, scaled by 100). -/
inductive Cell
  | cnone
  | cstr (s : String)
  | cnum (n : Int)
deriving DecidableEq

/-- Python exceptions that the modelled code can raise. -/
inductive PyErr
  | keyError (k : String)
  | valueError (msg : String)
deriving DecidableEq

/-- A DataFrame: named columns in order, each a list of cells. -/
abbrev Frame := List (String × List Cell)

def getCol (df : Frame) (k : String) : Option (List Cell) :=
  (df.find? (fun p => p.1 == k)).map (·.2)

/-- `df[k] = v`: overwrite the column in place (keeping its position) or
append a new column at the end. -/
def setCol : Frame → String → List Cell → Frame
  | [], k, v => [(k, v)]
  | p :: rest, k, v => if p.1 == k then (k, v) :: rest else p :: setCol rest k v

/-- A row of a city table: `City`, `Latitude`, `Longitude` (scaled by 100). -/
structure CityRec where
  name : String
  lat : Int
  lon : Int
deriving DecidableEq

/-- `DEFAULT_CITIES` from `src/app.py`. -/
def defaultCities : List CityRec :=
  [⟨"Denver", 3974, -10499⟩, ⟨"Colorado Springs", 3883, -10482⟩,
   ⟨"Aurora", 3973, -10483⟩, ⟨"Fort Collins", 4059, -10508⟩,
   ⟨"Lakewood", 3971, -10508⟩, ⟨"Boulder", 4002, -10527⟩]

/-- `CITY_TO_COUNTY` from `src/app.py`, in source order. -/
def cityToCounty : List (String × String) :=
  [("denver", "Denver"), ("aurora", "Arapahoe"), ("colorado springs", "El Paso"),
   ("fort collins", "Larimer"), ("lakewood", "Jefferson"), ("thornton", "Adams"),
   ("arvada", "Jefferson"), ("westminster", "Adams"), ("greeley", "Weld"),
   ("pueblo", "Pueblo"), ("centennial", "Arapahoe"), ("boulder", "Boulder"),
   ("longmont", "Boulder"), ("castle rock", "Douglas"), ("loveland", "Larimer"),
   ("broomfield", "Broomfield"), ("grand junction", "Mesa"), ("commerce city", "Adams"),
   ("parker", "Douglas"), ("littleton", "Arapahoe"), ("northglenn", "Adams"),
   ("brighton", "Adams"), ("wheat ridge", "Jefferson"), ("fountain", "El Paso"),
   ("lafayette", "Boulder"), ("erie", "Boulder"), ("englewood", "Arapahoe"),
   ("evans", "Weld"), ("golden", "Jefferson"), ("montrose", "Montrose"),
   ("aspen", "Pitkin"), ("vail", "Eagle"), ("steamboat springs", "Routt"),
   ("durango", "La Plata"), ("glenwood springs", "Garfield"), ("telluride", "San Miguel"),
   ("breckenridge", "Summit"), ("crested butte", "Gunnison")]

/-- `str.title()` (ASCII model): uppercase a letter not preceded by a letter,
lowercase the others. -/
def pyTitleGo : List Char → Bool → List Char
  | [], _ => []
  | c :: rest, prevCased =>
    (if c.isAlpha then (if prevCased then lowerChar c else upperChar c) else c)
      :: pyTitleGo rest c.isAlpha

def pyTitle (s : String) : String := ⟨pyTitleGo s.data false⟩

/-- `clean_location` from `src/app.py` on the underlying character list
(`pd.isna` is false on strings): `str(location).strip()`, then
`location.split(',')[0].lower()`, then `re.sub(r'[^\w\s]', ' ', _)`,
then `re.sub(r'\s+', ' ', _).strip()`. -/
def gClean (l : List Char) : List Char :=
  pyStripList (collapseWs (subPunct (lowerList ((pyStripList l).takeWhile (fun c => c != ',')))))

/-- `clean_location` from `src/app.py` on an actual string. -/
def appCleanLocation (s : String) : String := ⟨gClean s.data⟩

/-- `match_location(location, cities, threshold)` from `src/app.py`:
empty (falsy) input short-circuits; clean; split on comma and strip; exact
`CITY_TO_COUNTY` key hit returns the title-cased key with 100; otherwise a
token-sort fuzzy match against the lowercased `City` column, resolved back to
the original spelling. -/
def appMatchLocation (loc : String) (cities : List CityRec) (t : Int) : Option String × Nat :=
  if loc == "" then (none, 0)
  else
    let cleaned := appCleanLocation loc
    let cityPart : String := ⟨pyStripList (cleaned.data.takeWhile (fun c => c != ','))⟩
    if (cityToCounty.find? (fun p => p.1 == cityPart)).isSome then
      (some (pyTitle cityPart), 100)
    else
      match extractOne cityPart (cities.map (fun c => pyLower c.name)) with
      | some (best, score) =>
        if (score : Int) ≥ t then
          match cities.find? (fun c => pyLower c.name == best) with
          | some c => (some c.name, score)
          | none => (none, 0)
        else (none, 0)
      | none => (none, 0)

/-- `df['location'].astype(str)` on one cell: `NaN` becomes the string
`"nan"`, numbers their decimal spelling. -/
def astypeStr (c : Cell) : Cell :=
  match c with
  | .cnone => .cstr "nan"
  | .cstr s => .cstr s
  | .cnum n => .cstr (toString n)

/-- `clean_location` applied to a cell (`pd.isna` catches `NaN`). -/
def cellClean (c : Cell) : Cell :=
  match c with
  | .cnone => .cstr ""
  | .cstr s => .cstr (appCleanLocation s)
  | .cnum n => .cstr (appCleanLocation (toString n))

/-- `match_location` applied to a `cleaned_location` cell (always a string in
the pipeline; a missing or zero value is falsy and yields no match). -/
def cellMatch (c : Cell) (cities : List CityRec) (t : Int) : Option String × Nat :=
  match c with
  | .cstr s => appMatchLocation s cities t
  | _ => (none, 0)

/-- `city_lookup = cities.set_index('City')[['Latitude','Longitude']].to_dict('index')`
(`to_dict('index')` requires a unique index, so first match suffices). -/
def cityLookup (cities : List CityRec) (name : String) : Option (Int × Int) :=
  (cities.find? (fun c => c.name == name)).map (fun c => (c.lat, c.lon))

/-- The `matched_city` cell written for one row: the matched city string, or
`None` (which pandas stores as `NaN`) when there was no match. -/
def matchedCityCell (p : Option String × Nat) : Cell :=
  match p.1 with
  | some c => Cell.cstr c
  | none => Cell.cnone

/-- `df['latitude'] = df['matched_city'].apply(lambda city: city_lookup.get(city, \x7b\x7d).get('Latitude'))`
on one cell: a city absent from the coordinate catalog gives `NaN`. -/
def latCell (cities : List CityRec) (mc : Cell) : Cell :=
  match mc with
  | .cstr s =>
    match cityLookup cities s with
    | some q => Cell.cnum q.1
    | none => Cell.cnone
  | _ => Cell.cnone

/-- Same for `Longitude`. -/
def lonCell (cities : List CityRec) (mc : Cell) : Cell :=
  match mc with
  | .cstr s =>
    match cityLookup cities s with
    | some q => Cell.cnum q.2
    | none => Cell.cnone
  | _ => Cell.cnone

/-- `df['county'] = df['matched_city'].str.lower().map(CITY_TO_COUNTY).str.title()`
on one cell: missing city or missing county mapping gives `NaN`. -/
def cellCounty (mc : Cell) : Cell :=
  match mc with
  | .cstr s =>
    match pyDictGet cityToCounty (pyLower s) with
    | some county => .cstr (pyTitle county)
    | none => .cnone
  | _ => .cnone

/-- `process_job_data(df, cities, threshold)` from `src/app.py`.  The first
statement `df['location'] = df['location'].astype(str)` raises `KeyError` if
the frame has no column named exactly `location`, before any row is touched.
All column assignments mutate `df` in place; the returned frame is the
caller's frame after those mutations. -/
def processJobData (df : Frame) (cities : List CityRec) (t : Int) : Except PyErr Frame :=
  match getCol df "location" with
  | none => .error (.keyError "location")
  | some locCol =>
    let locCol := locCol.map astypeStr
    let df := setCol df "location" locCol
    let cleaned := locCol.map cellClean
    let df := setCol df "cleaned_location" cleaned
    let matchResults := cleaned.map (fun c => cellMatch c cities t)
    let matchedCity := matchResults.map matchedCityCell
    let df := setCol df "matched_city" matchedCity
    let df := setCol df "latitude" (matchedCity.map (latCell cities))
    let df := setCol df "longitude" (matchedCity.map (lonCell cities))
    let df := setCol df "county" (matchedCity.map cellCounty)
    let df := setCol df "industry" (match getCol df "jobs[0].function" with
      | some ind => ind.map astypeStr
      | none => List.replicate locCol.length Cell.cnone)
    .ok df

/-- The caller's frame after `process_job_data` returns or raises: the
assignments above mutate the caller's `df` in place, so on success the
caller's frame is the returned one; the `KeyError` fires on the very first
statement, before any mutation. -/
def processJobDataCallerAfter (df : Frame) (cities : List CityRec) (t : Int) : Frame :=
  match processJobData df cities t with
  | .ok out => out
  | .error _ => df

/-- A group key is formed only when the city is present and both coordinates
are numbers (pandas `groupby` drops rows with `NaN` in any key component:
here, a matched city that is absent from the coordinate catalog). -/
def cityKeyOf (x : (Cell × Cell) × Cell) : Option (String × Int × Int) :=
  match x.1.1, x.1.2, x.2 with
  | .cstr c, .cnum a, .cnum o => some (c, a, o)
  | _, _, _ => none

/-- The group keys of the `city_counts` aggregate of `create_city_map`:
`data[data['matched_city'].notna()].groupby(['matched_city','latitude','longitude'])`. -/
def cityMapKeys (df : Frame) : List (String × Int × Int) :=
  match getCol df "matched_city", getCol df "latitude", getCol df "longitude" with
  | some mc, some la, some lo => ((mc.zip la).zip lo).filterMap cityKeyOf
  | _, _, _ => []

/-- Per-key sizes of the groupby (group order irrelevant to the claims). -/
def groupCounts {κ : Type} [DecidableEq κ] (l : List κ) : List (κ × Nat) :=
  l.dedup.map (fun k => (k, l.count k))

def cityMapCounts (df : Frame) : List ((String × Int × Int) × Nat) :=
  groupCounts (cityMapKeys df)

/-- Number of rows with a non-null `matched_city` (the "matched rows"). -/
def matchedRowCount (df : Frame) : Nat :=
  match getCol df "matched_city" with
  | some mc => (mc.filter (fun c => match c with | .cstr _ => true | _ => false)).length
  | none => 0

/-! ### The batch loop `LocationMatcher.match_locations` -/

/-- A Python value sitting in the `location` field of a row: `None`/`NaN`,
a string, or a multi-element array-like object (e.g. a list that a malformed
source put in the cell). -/
inductive PyVal
  | pynone
  | pystr (s : String)
  | pyarr
deriving DecidableEq

/-- `pd.isna(v) or v == ""`: `True` for `None`/`NaN`, emptiness for strings;
for a multi-element array `pd.isna` returns an array whose truth value is
ambiguous, so the `or` raises `ValueError`. -/
def pdIsnaOrEmpty (v : PyVal) : Except PyErr Bool :=
  match v with
  | .pynone => .ok true
  | .pystr s => .ok (s == "")
  | .pyarr => .error (.valueError "The truth value of an array with more than one element is ambiguous. Use a.any() or a.all()")

/-- `match_location_to_city` on a raw cell value: the guard may raise; string
values flow into the matching core (a non-string, non-missing value that
passes the guard cannot arise: the guard is `True` for `None`/`NaN` and
raises for arrays). -/
def matchLocationToCityVal (m : Matcher) (v : PyVal) (t : Int) :
    Except PyErr (Option String × Nat) :=
  match pdIsnaOrEmpty v with
  | .error e => .error e
  | .ok true => .ok (none, 0)
  | .ok false =>
    match v with
    | .pystr s => .ok (matchCityCore m s t)
    | _ => .ok (none, 0)

/-- The option-valued location of a well-formed (non-array) cell. -/
def optLoc (v : PyVal) : Option String :=
  match v with
  | .pystr s => some s
  | _ => none

/-- An input row of `match_locations`: the `location` field plus the opaque
remaining fields, which are carried through unchanged. -/
structure JobRow where
  location : PyVal
  rest : List String
deriving DecidableEq

/-- An output row: the copied input row plus the `matched_city` and
`match_confidence` columns. -/
structure MLOut where
  base : JobRow
  matchedCity : Option String
  confidence : Nat
deriving DecidableEq

/-- The two frames alive during `match_locations`: the caller's `job_data`
and the local `result_df` copy that the loop writes into. -/
structure MLState where
  caller : List JobRow
  result : List MLOut
deriving DecidableEq

/-- `result_df = job_data.copy()` followed by
`result_df['matched_city'] = None; result_df['match_confidence'] = 0`. -/
def mlInit (rows : List JobRow) : List MLOut :=
  rows.map (fun r => ⟨r, none, 0⟩)

/-- The `for idx, row in result_df.iterrows()` loop: at each index read
`row['location']` from the result frame, resolve it, and write the
`matched_city` / `match_confidence` cells at that index.  An exception from
the row's resolution propagates (there is no `try`/`except` in the loop). -/
def mlGo (m : Matcher) (t : Int) : List Nat → MLState → Except PyErr MLState
  | [], s => .ok s
  | i :: rest, s =>
    match s.result[i]? with
    | none => mlGo m t rest s
    | some o =>
      match matchLocationToCityVal m o.base.location t with
      | .error e => .error e
      | .ok mc => mlGo m t rest ⟨s.caller, s.result.set i ⟨o.base, mc.1, mc.2⟩⟩

/-- `LocationMatcher.match_locations(job_data, fuzzy_threshold)` with both
frames made explicit. -/
def matchLocationsState (m : Matcher) (rows : List JobRow) (t : Int) :
    Except PyErr MLState :=
  mlGo m t (List.range rows.length) ⟨rows, mlInit rows⟩

/-- The returned frame of `match_locations`. -/
def matchLocations (m : Matcher) (rows : List JobRow) (t : Int) :
    Except PyErr (List MLOut) :=
  (matchLocationsState m rows t).map (·.result)

/-! ### Helper lemmas about the matching core -/

theorem matchVariationsFuzzy_pos (m : Matcher) (cp : String) (t : Int) (ht : 1 ≤ t) :
    ((matchVariationsFuzzy m cp t).1.isSome ↔ 0 < (matchVariationsFuzzy m cp t).2) := by
  unfold matchVariationsFuzzy
  rcases hE : extractOne cp (m.variations.map (·.1)) with _ | ⟨mv, score⟩
  · simp [hE]
  · simp only [hE]
    by_cases hge : t ≤ (score : Int)
    · rw [if_pos hge]
      rcases hV : pyDictGet m.variations mv with _ | city
      · simp
      · simp only [hV, Option.isSome_some, true_iff]
        omega
    · rw [if_neg hge]; simp

theorem matchVariationsFuzzy_mono (m : Matcher) (cp : String) (t1 t2 : Int)
    (hle : t1 ≤ t2) (h : (matchVariationsFuzzy m cp t2).1.isSome = true) :
    (matchVariationsFuzzy m cp t1).1.isSome = true := by
  unfold matchVariationsFuzzy at h ⊢
  rcases hE : extractOne cp (m.variations.map (·.1)) with _ | ⟨mv, score⟩
  · rw [hE] at h; simp at h
  · simp only [hE] at h ⊢
    by_cases hge : t2 ≤ (score : Int)
    · rw [if_pos hge] at h
      rw [if_pos (le_trans hle hge)]
      exact h
    · rw [if_neg hge] at h; simp at h

/-! ### Claim C1 -/

/-- C1 (amended): for every matcher state, location input and integer
threshold at least 1, `match_location_to_city` returns a non-null city if and
only if the returned confidence is positive: the result is either
`(city, score > 0)` or `(null, 0)`. -/
theorem spec_c1_match_iff_confidence_pos (m : Matcher) (loc : Option String) (t : Int)
    (ht : 1 ≤ t) :
    ((matchLocationToCity m loc t).1.isSome ↔ 0 < (matchLocationToCity m loc t).2) := by
  cases loc with
  | none => simp [matchLocationToCity]
  | some s =>
    by_cases hs : (s == "")
    · simp [matchLocationToCity, hs]
    · simp only [matchLocationToCity, hs, Bool.false_eq_true, if_false]
      unfold matchCityCore
      rcases hV : pyDictGet m.variations (extractCityFromLocation s) with _ | city
      · simp only [hV]
        rcases hE : extractOne (extractCityFromLocation s) m.cityNames with _ | ⟨best, score⟩
        · simp only [hE]
          exact matchVariationsFuzzy_pos m (extractCityFromLocation s) t ht
        · simp only [hE]
          by_cases hge : t ≤ (score : Int)
          · rw [if_pos hge]
            simp only [Option.isSome_some, true_iff]
            omega
          · rw [if_neg hge]
            exact matchVariationsFuzzy_pos m (extractCityFromLocation s) t ht
      · simp only [hV]
        simp

/-- C1, witness for the amended theorem at threshold 80 and input "denver". -/
theorem spec_c1_match_iff_confidence_pos_witness :
    (1 : Int) ≤ 80 ∧
      ((matchLocationToCity defaultMatcher (some "denver") 80).1.isSome ↔
        0 < (matchLocationToCity defaultMatcher (some "denver") 80).2) :=
  ⟨by norm_num, spec_c1_match_iff_confidence_pos defaultMatcher (some "denver") 80 (by norm_num)⟩

/-- C1, counterexample to the claim as stated ("for every integer threshold
the Resolver accepts"): at threshold 0 the input "qq" scores 0 against every
default-catalog city, `0 >= 0` passes the fuzzy gate, and the matcher returns
the city "Denver" together with confidence 0 — a non-null city whose
confidence is not greater than 0. -/
theorem spec_c1_counterexample :
    (matchLocationToCity defaultMatcher (some "qq") 0).1.isSome = true ∧
      (matchLocationToCity defaultMatcher (some "qq") 0).2 = 0 := by decide

/-! ### Claim C5 -/

/-- C5: whenever the normalized/extracted candidate of a location string is
present verbatim as a key of the variations (alias) dictionary, the matcher
returns that alias's canonical city with confidence exactly 100, for every
catalog and every threshold. -/
theorem spec_c5_exact_alias_scores_100 (names : List String) (s c : String) (t : Int)
    (hs : s ≠ "")
    (hkey : pyDictGet (createCityVariations names) (extractCityFromLocation s) = some c) :
    matchLocationToCity (mkMatcher names) (some s) t = (some c, 100) := by
  have hs' : (s == "") = false := by simpa using hs
  unfold matchLocationToCity matchCityCore
  simp [hs', mkMatcher, hkey]

/-- C5, witness: "Denver, CO" extracts to "denver", an alias-index key of the
default catalog, and resolves to ("Denver", 100). -/
theorem spec_c5_exact_alias_scores_100_witness :
    matchLocationToCity (mkMatcher defaultCityNames) (some "Denver, CO") 80 = (some "Denver", 100) :=
  spec_c5_exact_alias_scores_100 defaultCityNames "Denver, CO" "Denver" 80 (by decide) (by decide)

/-! ### Claim C6 -/

/-- C6: for a fixed matcher state and location input, if the row resolves to
a non-null city at the larger threshold `t2`, it also resolves to a non-null
city at any smaller threshold `t1` (the matched set is antitone in the
threshold). -/
theorem spec_c6_threshold_antitone (m : Matcher) (loc : Option String) (t1 t2 : Int)
    (hlt : t1 < t2) (h : (matchLocationToCity m loc t2).1.isSome = true) :
    (matchLocationToCity m loc t1).1.isSome = true := by
  have hle : t1 ≤ t2 := le_of_lt hlt
  cases loc with
  | none => simp [matchLocationToCity] at h
  | some s =>
    by_cases hs : (s == "")
    · simp [matchLocationToCity, hs] at h
    · simp only [matchLocationToCity, hs, Bool.false_eq_true, if_false] at h ⊢
      unfold matchCityCore at h ⊢
      rcases hV : pyDictGet m.variations (extractCityFromLocation s) with _ | city
      · simp only [hV] at h ⊢
        rcases hE : extractOne (extractCityFromLocation s) m.cityNames with _ | ⟨best, score⟩
        · simp only [hE] at h ⊢
          exact matchVariationsFuzzy_mono m (extractCityFromLocation s) t1 t2 hle h
        · simp only [hE] at h ⊢
          by_cases hge2 : t2 ≤ (score : Int)
          · rw [if_pos (le_trans hle hge2)]
            simp
          · rw [if_neg hge2] at h
            by_cases hge1 : t1 ≤ (score : Int)
            · rw [if_pos hge1]; simp
            · rw [if_neg hge1]
              exact matchVariationsFuzzy_mono m (extractCityFromLocation s) t1 t2 hle h
      · simp only [hV] at h ⊢
        simp

/-- C6, witness: "denver" matches at threshold 90, hence also at 70. -/
theorem spec_c6_threshold_antitone_witness :
    (70 : Int) < 90 ∧
      (matchLocationToCity defaultMatcher (some "denver") 90).1.isSome = true ∧
      (matchLocationToCity defaultMatcher (some "denver") 70).1.isSome = true :=
  ⟨by norm_num, by decide,
    spec_c6_threshold_antitone defaultMatcher (some "denver") 70 90 (by norm_num) (by decide)⟩

/-! ### Frame column lemmas -/

theorem getCol_setCol_self (df : Frame) (k : String) (v : List Cell) :
    getCol (setCol df k v) k = some v := by
  induction df with
  | nil => simp [getCol, setCol]
  | cons p rest ih =>
    by_cases hp : (p.1 == k) = true
    · simp [getCol, setCol, List.find?_cons, hp]
    · simpa [getCol, setCol, List.find?_cons, hp] using ih

theorem getCol_setCol_ne (df : Frame) (k k' : String) (v : List Cell) (hne : k' ≠ k) :
    getCol (setCol df k v) k' = getCol df k' := by
  have hkk : (k == k') = false := by simpa using fun h => hne h.symm
  induction df with
  | nil => simp [getCol, setCol, hkk]
  | cons p rest ih =>
    by_cases hp : (p.1 == k) = true
    · have hpk : p.1 = k := by simpa using hp
      have h2 : (p.1 == k') = false := by rw [hpk]; exact hkk
      simp [getCol, setCol, List.find?_cons, hp, hkk, h2]
    · by_cases hq : (p.1 == k') = true
      · simp [getCol, setCol, List.find?_cons, hp, hq]
      · simpa [getCol, setCol, List.find?_cons, hp, hq] using ih

/-! ### Claim C2 -/

/-- A matched row whose city also carries catalog coordinates. -/
def matchedWithCoords (cities : List CityRec) (mc : Cell) : Bool :=
  match mc with
  | Cell.cstr c => (cityLookup cities c).isSome
  | _ => false

theorem sum_groupCounts {κ : Type} [DecidableEq κ] (l : List κ) :
    ((groupCounts l).map (fun p => p.2)).sum = l.length := by
  unfold groupCounts
  rw [List.map_map]
  simpa using List.sum_map_count_dedup_eq_length l

theorem length_cityKeys_map (cities : List CityRec) (mc : List Cell) :
    (((mc.zip (mc.map (latCell cities))).zip (mc.map (lonCell cities))).filterMap cityKeyOf).length
      = mc.countP (matchedWithCoords cities) := by
  induction mc with
  | nil => rfl
  | cons c rest ih =>
    simp only [List.map_cons, List.zip_cons_cons, List.filterMap_cons, List.countP_cons]
    cases c with
    | cnone => simpa [cityKeyOf, latCell, lonCell, matchedWithCoords] using ih
    | cnum n => simpa [cityKeyOf, latCell, lonCell, matchedWithCoords] using ih
    | cstr s =>
      rcases hc : cityLookup cities s with _ | q
      · simpa [cityKeyOf, latCell, lonCell, matchedWithCoords, hc] using ih
      · simpa [cityKeyOf, latCell, lonCell, matchedWithCoords, hc] using ih

/-- C2 (amended): for every successful batch, the `create_city_map` per-city
aggregate counts sum to the number of matched rows whose city is present in
the coordinate catalog (pandas `groupby` silently drops matched rows whose
latitude/longitude are `NaN`). -/
theorem spec_c2_city_counts_sum (df : Frame) (cities : List CityRec) (t : Int) (out : Frame)
    (h : processJobData df cities t = .ok out) :
    ((cityMapCounts out).map (fun p => p.2)).sum
      = ((getCol out "matched_city").getD []).countP (matchedWithCoords cities) := by
  unfold processJobData at h
  rcases hL : getCol df "location" with _ | locCol
  · rw [hL] at h; exact absurd h (by simp)
  · rw [hL] at h
    simp only [Except.ok.injEq] at h
    subst h
    unfold cityMapCounts cityMapKeys
    rw [getCol_setCol_ne _ _ _ _ (by decide), getCol_setCol_ne _ _ _ _ (by decide),
      getCol_setCol_ne _ _ _ _ (by decide), getCol_setCol_ne _ _ _ _ (by decide),
      getCol_setCol_self]
    rw [getCol_setCol_ne _ _ _ _ (by decide), getCol_setCol_ne _ _ _ _ (by decide),
      getCol_setCol_ne _ _ _ _ (by decide), getCol_setCol_self]
    rw [getCol_setCol_ne _ _ _ _ (by decide), getCol_setCol_ne _ _ _ _ (by decide),
      getCol_setCol_self]
    simp only [Option.getD_some]
    rw [sum_groupCounts]
    exact length_cityKeys_map cities _

/-- The two-row "Boulder" frame of the spec scenario. -/
def boulderFrame : Frame := [("location", [Cell.cstr "Boulder", Cell.cstr "Boulder"])]

def boulderOut : Frame := processJobDataCallerAfter boulderFrame defaultCities 80

/-- C2, witness: two "Boulder" rows produce exactly one city group with
job_count 2, and the aggregate counts sum to the matched-with-coordinates
row count. -/
theorem spec_c2_city_counts_sum_witness :
    processJobData boulderFrame defaultCities 80 = .ok boulderOut ∧
      ((cityMapCounts boulderOut).map (fun p => p.2)).sum
        = ((getCol boulderOut "matched_city").getD []).countP (matchedWithCoords defaultCities) ∧
      cityMapCounts boulderOut = [(("Boulder", 4002, -10527), 2)] :=
  ⟨rfl, spec_c2_city_counts_sum boulderFrame defaultCities 80 boulderOut rfl, by decide⟩

/-- The one-row "Pueblo" frame: "pueblo" is a `CITY_TO_COUNTY` key, so the
row matches with confidence 100, but "Pueblo" has no entry in the six-city
coordinate catalog. -/
def puebloFrame : Frame := [("location", [Cell.cstr "Pueblo"])]

def puebloOut : Frame := processJobDataCallerAfter puebloFrame defaultCities 80

/-- C2, counterexample to the claim as stated: the "Pueblo" batch has one
matched row (`matched_city` is non-null), yet the per-city aggregate counts
sum to 0, because the matched city has no catalog coordinates and pandas
drops its group. -/
theorem spec_c2_counterexample :
    matchedRowCount puebloOut = 1 ∧
      ((cityMapCounts puebloOut).map (fun p => p.2)).sum = 0 := by decide

/-! ### Claim C3 -/

/-- Does `s` start with `w`? -/
def startsWithChars : List Char → List Char → Bool
  | _, [] => true
  | [], _ :: _ => false
  | c :: cs, d :: ds => c == d && startsWithChars cs ds

/-- Does `s` contain `w` as a contiguous substring? -/
def containsChars : List Char → List Char → Bool
  | [], w => w.isEmpty
  | c :: rest, w => startsWithChars (c :: rest) w || containsChars rest w

/-- Case-insensitive substring test on column names ("a field name containing
`location`, case-insensitive"). -/
def containsCI (hay needle : String) : Bool :=
  containsChars (lowerList hay.data) needle.data

/-- C3: if no column name of the input frame contains "location"
(case-insensitively), then batch processing fails on its very first statement
(`df['location']` raises `KeyError`) and the caller's frame is untouched:
no row is processed and no partial batch is produced. -/
theorem spec_c3_missing_location_fails_fast (df : Frame) (cities : List CityRec) (t : Int)
    (h : ∀ col ∈ df.map (fun p => p.1), containsCI col "location" = false) :
    processJobData df cities t = .error (.keyError "location") ∧
      processJobDataCallerAfter df cities t = df := by
  have hfind : List.find? (fun p => p.1 == "location") df = none := by
    rw [List.find?_eq_none]
    intro p hp hb
    have hco := h p.1 (List.mem_map_of_mem _ hp)
    have hpk : p.1 = "location" := by simpa using hb
    rw [hpk] at hco
    exact absurd hco (by decide)
  have hget : getCol df "location" = none := by
    unfold getCol; rw [hfind]; rfl
  constructor
  · unfold processJobData
    rw [hget]
  · unfold processJobDataCallerAfter processJobData
    rw [hget]

/-- C3, witness: a frame with only a "title" column fails fast. -/
theorem spec_c3_missing_location_fails_fast_witness :
    processJobData [("title", [Cell.cstr "Engineer"])] defaultCities 80
        = .error (.keyError "location") ∧
      processJobDataCallerAfter [("title", [Cell.cstr "Engineer"])] defaultCities 80
        = [("title", [Cell.cstr "Engineer"])] :=
  spec_c3_missing_location_fails_fast [("title", [Cell.cstr "Engineer"])] defaultCities 80
    (by decide)

/-! ### Loop lemmas for `match_locations` -/

theorem matchLocationToCityVal_ok (m : Matcher) (v : PyVal) (t : Int) (hv : v ≠ .pyarr) :
    matchLocationToCityVal m v t = .ok (matchLocationToCity m (optLoc v) t) := by
  cases v with
  | pynone => rfl
  | pyarr => exact absurd rfl hv
  | pystr s =>
    by_cases hs : (s == "") = true
    · simp [matchLocationToCityVal, pdIsnaOrEmpty, hs, matchLocationToCity, optLoc]
    · have hs' : (s == "") = false := by simpa using hs
      simp [matchLocationToCityVal, pdIsnaOrEmpty, hs', matchLocationToCity, optLoc]

theorem mlGo_caller (m : Matcher) (t : Int) :
    ∀ (idxs : List Nat) (s s' : MLState),
      mlGo m t idxs s = .ok s' → s'.caller = s.caller := by
  intro idxs
  induction idxs with
  | nil =>
    intro s s' h
    simp only [mlGo, Except.ok.injEq] at h
    rw [← h]
  | cons i rest ih =>
    intro s s' h
    unfold mlGo at h
    rcases hg : s.result[i]? with _ | o
    · rw [hg] at h
      exact ih s s' h
    · simp only [hg] at h
      rcases hm : matchLocationToCityVal m o.base.location t with e | mc
      · simp only [hm] at h
        cases h
      · simp only [hm] at h
        exact ih ⟨s.caller, s.result.set i ⟨o.base, mc.1, mc.2⟩⟩ s' h

theorem mlGo_bad_errors (m : Matcher) (t : Int) (i : Nat) (o : MLOut)
    (hbad : o.base.location = .pyarr) :
    ∀ (idxs : List Nat) (s : MLState), i ∈ idxs → s.result[i]? = some o →
      ∃ e, mlGo m t idxs s = .error e := by
  intro idxs
  induction idxs with
  | nil =>
    intro s hi _
    simp at hi
  | cons j rest ih =>
    intro s hi hg
    unfold mlGo
    rcases List.mem_cons.mp hi with hij | hir
    · subst hij
      simp only [hg, hbad]
      exact ⟨_, rfl⟩
    · rcases hgj : s.result[j]? with _ | oj
      · simp only [hgj]
        exact ih s hir hg
      · simp only [hgj]
        rcases hm : matchLocationToCityVal m oj.base.location t with e | mc
        · simp only [hm]
          exact ⟨e, rfl⟩
        · simp only [hm]
          by_cases hij2 : i = j
          · subst hij2
            rw [hg] at hgj
            injection hgj with hoj
            rw [← hoj, hbad] at hm
            simp [matchLocationToCityVal, pdIsnaOrEmpty] at hm
          · have hg2 : (s.result.set j ⟨oj.base, mc.1, mc.2⟩)[i]? = some o := by
              rw [List.getElem?_set_ne (fun h => hij2 h.symm)]
              exact hg
            exact ih ⟨s.caller, s.result.set j ⟨oj.base, mc.1, mc.2⟩⟩ hir hg2

/-- The output row that the loop writes for input row `r`. -/
def outOf (m : Matcher) (t : Int) (r : JobRow) : MLOut :=
  ⟨r, (matchLocationToCity m (optLoc r.location) t).1,
    (matchLocationToCity m (optLoc r.location) t).2⟩

theorem set_append_length {α : Type} (xs : List α) (y : α) (ys : List α) (v : α) :
    (xs ++ y :: ys).set xs.length v = xs ++ v :: ys := by
  induction xs with
  | nil => rfl
  | cons x rest ih => simp [List.set, ih]

theorem mlGo_map (m : Matcher) (t : Int) (rows : List JobRow)
    (hgood : ∀ r ∈ rows, r.location ≠ .pyarr) :
    ∀ n k, n = rows.length - k → k ≤ rows.length →
      mlGo m t (List.range' k n)
          ⟨rows, (rows.map (outOf m t)).take k ++ (mlInit rows).drop k⟩
        = .ok ⟨rows, rows.map (outOf m t)⟩ := by
  intro n
  induction n with
  | zero =>
    intro k hn hk
    have hkl : k = rows.length := by omega
    subst hkl
    have h1 : (rows.map (outOf m t)).take rows.length = rows.map (outOf m t) :=
      List.take_of_length_le (by simp)
    have h2 : (mlInit rows).drop rows.length = [] :=
      List.drop_eq_nil_of_le (by simp [mlInit])
    simp [mlGo, List.range', h1, h2]
  | succ n ihn =>
    intro k hn hk
    have hklt : k < rows.length := by omega
    rcases hr : rows[k]? with _ | r
    · rw [List.getElem?_eq_none_iff] at hr; omega
    · have hrmem : r ∈ rows := List.mem_iff_getElem?.mpr ⟨k, hr⟩
      have hrg : r.location ≠ .pyarr := hgood r hrmem
      have hlen : ((rows.map (outOf m t)).take k).length = k := by
        simp [List.length_take]
        omega
      have hinit : (mlInit rows)[k]? = some ⟨r, none, 0⟩ := by
        unfold mlInit
        rw [List.getElem?_map, hr]
        rfl
      have hgetk :
          ((rows.map (outOf m t)).take k ++ (mlInit rows).drop k)[k]? = some ⟨r, none, 0⟩ := by
        rw [List.getElem?_append_right (by omega)]
        rw [hlen, Nat.sub_self, List.getElem?_drop, Nat.add_zero]
        exact hinit
      rw [show List.range' k (n + 1) = k :: List.range' (k + 1) n from List.range'_succ k n 1]
      unfold mlGo
      simp only [hgetk]
      simp only [matchLocationToCityVal_ok m r.location t hrg]
      have hset :
          ((rows.map (outOf m t)).take k ++ (mlInit rows).drop k).set k
              ⟨r, (matchLocationToCity m (optLoc r.location) t).1,
                (matchLocationToCity m (optLoc r.location) t).2⟩
            = (rows.map (outOf m t)).take (k + 1) ++ (mlInit rows).drop (k + 1) := by
        have hdrop : (mlInit rows).drop k = ⟨r, none, 0⟩ :: (mlInit rows).drop (k + 1) := by
          have hklt' : k < (mlInit rows).length := by simp [mlInit]; omega
          rw [List.drop_eq_getElem_cons hklt']
          congr 1
          have := hinit
          rw [List.getElem?_eq_getElem hklt'] at this
          injection this
        have htake :
            (rows.map (outOf m t)).take (k + 1)
              = (rows.map (outOf m t)).take k ++ [outOf m t r] := by
          rw [List.take_succ]
          rw [List.getElem?_map, hr]
          rfl
        rw [hdrop]
        have := set_append_length ((rows.map (outOf m t)).take k)
          (⟨r, none, 0⟩ : MLOut) ((mlInit rows).drop (k + 1))
          ⟨r, (matchLocationToCity m (optLoc r.location) t).1,
            (matchLocationToCity m (optLoc r.location) t).2⟩
        rw [hlen] at this
        rw [this, htake]
        simp [outOf]
      rw [hset]
      exact ihn (k + 1) (by omega) (by omega)

/-! ### Claim C9 -/

/-- C9: batch processing is deterministic and free of cross-row state: two
runs on the same inputs are identical, and (for any batch whose rows are
well-formed values) the output is the pointwise image of the input rows under
the per-row resolver — row `i` of the output depends only on row `i` of the
input, the matcher state and the threshold. -/
theorem spec_c9_batch_deterministic (m : Matcher) (rows : List JobRow) (t : Int) :
    matchLocations m rows t = matchLocations m rows t ∧
      ((∀ r ∈ rows, r.location ≠ .pyarr) →
        matchLocations m rows t = .ok (rows.map (outOf m t))) := by
  refine ⟨rfl, fun hgood => ?_⟩
  unfold matchLocations matchLocationsState
  have h0 := mlGo_map m t rows hgood (rows.length - 0) 0 rfl (by omega)
  rw [List.range_eq_range']
  simp only [Nat.sub_zero, List.take_zero, List.nil_append, List.drop_zero] at h0
  rw [h0]
  rfl

/-- C9, witness: a one-row batch evaluates to the pointwise map. -/
theorem spec_c9_batch_deterministic_witness :
    matchLocations defaultMatcher [⟨PyVal.pystr "denver", []⟩] 80
      = .ok ([⟨PyVal.pystr "denver", []⟩].map (outOf defaultMatcher 80)) :=
  (spec_c9_batch_deterministic defaultMatcher [⟨PyVal.pystr "denver", []⟩] 80).2 (by decide)

/-! ### Claim C8 -/

/-- C8 (amended): `match_locations` is side-effect-free with respect to the
caller's rows — it writes only into the `job_data.copy()` — so whenever the
batch completes, the caller's frame is exactly the input rows.  (The
app-level `process_job_data` is *not* side-effect-free: see the
counterexample.) -/
theorem spec_c8_match_locations_preserves_input (m : Matcher) (rows : List JobRow) (t : Int)
    (s : MLState) (h : matchLocationsState m rows t = .ok s) :
    s.caller = rows := by
  unfold matchLocationsState at h
  exact mlGo_caller m t (List.range rows.length) ⟨rows, mlInit rows⟩ s h

def c8Row : JobRow := ⟨PyVal.pystr "denver", []⟩

def c8State : MLState :=
  match matchLocationsState defaultMatcher [c8Row] 80 with
  | .ok s => s
  | .error _ => ⟨[], []⟩

/-- C8, witness: a successful one-row batch leaves the caller's rows
unchanged. -/
theorem spec_c8_match_locations_preserves_input_witness :
    matchLocationsState defaultMatcher [c8Row] 80 = .ok c8State ∧
      c8State.caller = [c8Row] :=
  ⟨rfl, spec_c8_match_locations_preserves_input defaultMatcher [c8Row] 80 c8State rfl⟩

def denverFrame : Frame := [("location", [Cell.cstr "Denver"])]

/-- C8, counterexample to the claim as stated: the app-level
`process_job_data` mutates the caller's frame in place (the first statement
already rewrites `df['location']`, and six derived columns are added), so
after the call the caller's frame is no longer the input frame. -/
theorem spec_c8_counterexample :
    processJobDataCallerAfter denverFrame defaultCities 80 ≠ denverFrame := by decide

/-! ### Claim C4 -/

/-- C4 (amended): the batch loop has no per-row exception handling: if any
row's `location` holds a malformed (multi-element array-like) value, the
`pd.isna(...) or ...` guard raises and the exception propagates out of
`match_locations` — the whole batch aborts with an error instead of marking
the row unmatched and continuing. -/
theorem spec_c4_row_fault_aborts_batch (m : Matcher) (rows : List JobRow) (t : Int)
    (r : JobRow) (hr : r ∈ rows) (hbad : r.location = .pyarr) :
    ∃ e, matchLocations m rows t = .error e := by
  obtain ⟨i, hig⟩ := List.mem_iff_getElem?.mp hr
  have hilt : i < rows.length := by
    by_contra hge
    rw [List.getElem?_eq_none_iff.mpr (by omega)] at hig
    cases hig
  have hinit : (mlInit rows)[i]? = some ⟨r, none, 0⟩ := by
    unfold mlInit
    rw [List.getElem?_map, hig]
    rfl
  obtain ⟨e, he⟩ := mlGo_bad_errors m t i ⟨r, none, 0⟩ hbad (List.range rows.length)
    ⟨rows, mlInit rows⟩ (List.mem_range.mpr hilt) hinit
  refine ⟨e, ?_⟩
  unfold matchLocations matchLocationsState
  rw [he]
  rfl

/-- C4, witness for the amended theorem: a three-row batch whose middle row
is malformed aborts as a whole. -/
theorem spec_c4_row_fault_aborts_batch_witness :
    (⟨PyVal.pyarr, []⟩ : JobRow) ∈
        [(⟨PyVal.pystr "denver", []⟩ : JobRow), ⟨PyVal.pyarr, []⟩, ⟨PyVal.pystr "boulder", []⟩] ∧
      ∃ e, matchLocations defaultMatcher
          [⟨PyVal.pystr "denver", []⟩, ⟨PyVal.pyarr, []⟩, ⟨PyVal.pystr "boulder", []⟩] 80
        = .error e :=
  ⟨by decide, spec_c4_row_fault_aborts_batch defaultMatcher
    [⟨PyVal.pystr "denver", []⟩, ⟨PyVal.pyarr, []⟩, ⟨PyVal.pystr "boulder", []⟩] 80
    ⟨PyVal.pyarr, []⟩ (by decide) rfl⟩

/-- C4, counterexample to the claim as stated: the faulting middle row does
not appear in any completed output marked unmatched — there is no output at
all, the batch is aborted by the propagated `ValueError`. -/
theorem spec_c4_counterexample :
    matchLocations defaultMatcher
        [⟨PyVal.pystr "denver", []⟩, ⟨PyVal.pyarr, []⟩, ⟨PyVal.pystr "boulder", []⟩] 80
      = .error (.valueError "The truth value of an array with more than one element is ambiguous. Use a.any() or a.all()") := by
  rfl

/-! ### Claim C7: blank inputs -/

theorem word_not_space (c : Char) (h : isWordChar c = true) : isPySpace c = false := by
  by_contra hsp
  have hsp' : isPySpace c = true := by simpa using hsp
  have hcs : c = ' ' ∨ c = '\t' ∨ c = '\n' ∨ c = '\r' ∨ c = '\x0b' ∨ c = '\x0c' := by
    simpa [isPySpace, or_assoc] using hsp'
  rcases hcs with rfl | rfl | rfl | rfl | rfl | rfl <;> exact absurd h (by decide)

theorem lowerChar_word (c : Char) (h : isWordChar c = true) : isWordChar (lowerChar c) = true := by
  unfold lowerChar
  rcases hf : caseTable.find? (fun p => p.1 == c) with _ | p
  · simp only [hf]
    exact h
  · simp only [hf]
    have hp : p ∈ caseTable := List.mem_of_find?_eq_some hf
    fin_cases hp <;> decide

theorem any_word_subNonWord (l : List Char) (h : l.any isWordChar = true) :
    (subNonWord l).any isWordChar = true := by
  rw [List.any_eq_true] at *
  obtain ⟨c, hc, hw⟩ := h
  refine ⟨c, ?_, hw⟩
  unfold subNonWord
  exact List.mem_map.mpr ⟨c, hc, by rw [if_pos hw]⟩

theorem any_word_lowerList (l : List Char) (h : l.any isWordChar = true) :
    (lowerList l).any isWordChar = true := by
  rw [List.any_eq_true] at *
  obtain ⟨c, hc, hw⟩ := h
  exact ⟨lowerChar c, List.mem_map.mpr ⟨c, hc, rfl⟩, lowerChar_word c hw⟩

theorem mem_dropWhile_of_not {α : Type} (p : α → Bool) (l : List α) (c : α)
    (hc : c ∈ l) (hp : p c = false) : c ∈ l.dropWhile p := by
  induction l with
  | nil => cases hc
  | cons a rest ih =>
    by_cases ha : p a = true
    · rw [List.dropWhile_cons_of_pos ha]
      rcases List.mem_cons.mp hc with rfl | hcr
      · rw [ha] at hp; cases hp
      · exact ih hcr
    · rw [List.dropWhile_cons_of_neg (by simpa using ha)]
      exact hc

theorem any_word_pyStripList (l : List Char) (h : l.any isWordChar = true) :
    (pyStripList l).any isWordChar = true := by
  rw [List.any_eq_true] at *
  obtain ⟨c, hc, hw⟩ := h
  have hsp := word_not_space c hw
  refine ⟨c, ?_, hw⟩
  unfold pyStripList
  rw [List.mem_reverse]
  apply mem_dropWhile_of_not _ _ _ _ hsp
  rw [List.mem_reverse]
  exact mem_dropWhile_of_not _ _ _ hc hsp

theorem splitWsAux_tok_ne_nil (l : List Char) :
    ∀ (acc : List Char) (tok : List Char), tok ∈ splitWsAux l acc → tok ≠ [] := by
  induction l with
  | nil =>
    intro acc tok htok
    unfold splitWsAux at htok
    by_cases hacc : acc.isEmpty = true
    · rw [if_pos hacc] at htok; cases htok
    · rw [if_neg hacc] at htok
      rcases List.mem_cons.mp htok with rfl | hmem
      · simpa [List.isEmpty_iff] using hacc
      · cases hmem
  | cons c rest ih =>
    intro acc tok htok
    unfold splitWsAux at htok
    by_cases hsp : isPySpace c = true
    · rw [if_pos hsp] at htok
      by_cases hacc : acc.isEmpty = true
      · rw [if_pos hacc] at htok
        exact ih [] tok htok
      · rw [if_neg hacc] at htok
        rcases List.mem_cons.mp htok with rfl | hmem
        · simpa [List.isEmpty_iff] using hacc
        · exact ih [] tok hmem
    · rw [if_neg hsp] at htok
      exact ih (c :: acc) tok htok

theorem splitWsAux_ne_nil (l : List Char) :
    ∀ (acc : List Char), (∃ c ∈ l, isPySpace c = false) ∨ acc ≠ [] →
      splitWsAux l acc ≠ [] := by
  induction l with
  | nil =>
    intro acc h
    rcases h with ⟨c, hc, _⟩ | hacc
    · cases hc
    · unfold splitWsAux
      rw [if_neg (by simpa [List.isEmpty_iff] using hacc)]
      simp
  | cons c rest ih =>
    intro acc h
    unfold splitWsAux
    by_cases hsp : isPySpace c = true
    · by_cases hacc : acc.isEmpty = true
      · rw [if_pos hsp, if_pos hacc]
        apply ih []
        left
        rcases h with ⟨c', hc', hcsp⟩ | hacc'
        · rcases List.mem_cons.mp hc' with rfl | hmem
          · rw [hsp] at hcsp; cases hcsp
          · exact ⟨c', hmem, hcsp⟩
        · exact absurd (by simpa [List.isEmpty_iff] using hacc) hacc'
      · rw [if_pos hsp, if_neg hacc]
        simp
    · rw [if_neg hsp]
      apply ih (c :: acc)
      right
      simp
  
theorem insertSorted_ne_nil (x : List Char) (l : List (List Char)) :
    insertSorted x l ≠ [] := by
  cases l with
  | nil => simp [insertSorted]
  | cons y ys =>
    unfold insertSorted
    by_cases hlt : listCharLt x y = true
    · rw [if_pos hlt]; simp
    · rw [if_neg hlt]; simp

theorem sortTokens_ne_nil (ts : List (List Char)) (h : ts ≠ []) : sortTokens ts ≠ [] := by
  cases ts with
  | nil => exact absurd rfl h
  | cons x xs => exact insertSorted_ne_nil x (sortTokens xs)

theorem mem_insertSorted (x y : List Char) (l : List (List Char))
    (h : y ∈ insertSorted x l) : y = x ∨ y ∈ l := by
  induction l with
  | nil => simpa [insertSorted] using h
  | cons z zs ih =>
    unfold insertSorted at h
    by_cases hlt : listCharLt x z = true
    · rw [if_pos hlt] at h
      rcases List.mem_cons.mp h with rfl | hm
      · exact Or.inl rfl
      · exact Or.inr hm
    · rw [if_neg hlt] at h
      rcases List.mem_cons.mp h with rfl | hm
      · exact Or.inr (List.mem_cons_self _ _)
      · rcases ih hm with rfl | hm'
        · exact Or.inl rfl
        · exact Or.inr (List.mem_cons_of_mem _ hm')

theorem mem_sortTokens (y : List Char) (ts : List (List Char))
    (h : y ∈ sortTokens ts) : y ∈ ts := by
  induction ts with
  | nil => simpa [sortTokens] using h
  | cons x xs ih =>
    unfold sortTokens at h
    rcases mem_insertSorted x y (sortTokens xs) h with rfl | hm
    · exact List.mem_cons_self _ _
    · exact List.mem_cons_of_mem _ (ih hm)

theorem joinSpace_ne_nil (ts : List (List Char)) (hne : ts ≠ [])
    (hall : ∀ t ∈ ts, t ≠ []) : joinSpace ts ≠ [] := by
  match ts with
  | [] => exact absurd rfl hne
  | [t] => exact hall t (List.mem_cons_self _ _)
  | t :: t2 :: rest =>
    show t ++ ' ' :: joinSpace (t2 :: rest) ≠ []
    simp

/-- A string containing at least one word character survives full_process,
token splitting, sorting and rejoining: the token-sort image is nonempty. -/
theorem processAndSort_ne_nil (s : String) (h : s.data.any isWordChar = true) :
    processAndSort s ≠ [] := by
  have hfp : (fullProcess s).data.any isWordChar = true := by
    show (pyStripList (lowerList (subNonWord s.data))).any isWordChar = true
    exact any_word_pyStripList _ (any_word_lowerList _ (any_word_subNonWord _ h))
  rw [List.any_eq_true] at hfp
  obtain ⟨c, hc, hw⟩ := hfp
  have hsplit : splitWs (fullProcess s).data ≠ [] :=
    splitWsAux_ne_nil _ [] (Or.inl ⟨c, hc, word_not_space c hw⟩)
  have hsorted : sortTokens (splitWs (fullProcess s).data) ≠ [] :=
    sortTokens_ne_nil _ hsplit
  unfold processAndSort
  apply joinSpace_ne_nil _ hsorted
  intro tok htok
  exact splitWsAux_tok_ne_nil _ [] tok (mem_sortTokens tok _ htok)

/-- The token-sort scorer gives an empty query score 0 against any choice
that contains a word character. -/
theorem score_empty_query (c : String) (hw : c.data.any isWordChar = true) :
    tokenSortScore (fullProcess "") c = 0 := by
  have h2 : processAndSort c ≠ [] := processAndSort_ne_nil c hw
  show pyScore (processAndSort (fullProcess "")) (processAndSort c) = 0
  have h1 : processAndSort (fullProcess "") = [] := rfl
  rw [h1]
  unfold pyScore
  have hne : (([] : List Char) == processAndSort c) = false := by
    rw [beq_eq_false_iff_ne]
    exact fun h => h2 h.symm
  simp only [hne, Bool.false_eq_true, if_false]
  rw [if_pos]
  simp

theorem maxByFirst_mem (l : List (String × Nat)) (p : String × Nat)
    (h : maxByFirst l = some p) : p ∈ l := by
  cases l with
  | nil => cases h
  | cons q rest =>
    simp only [maxByFirst, Option.some.injEq] at h
    have haux : ∀ (r : List (String × Nat)) (acc : String × Nat),
        r.foldl (fun best x => if best.2 < x.2 then x else best) acc = acc ∨
          r.foldl (fun best x => if best.2 < x.2 then x else best) acc ∈ r := by
      intro r
      induction r with
      | nil => intro acc; exact Or.inl rfl
      | cons x xs ih =>
        intro acc
        simp only [List.foldl_cons]
        by_cases hx : acc.2 < x.2
        · rw [if_pos hx]
          rcases ih x with he | hm
          · right; rw [he]; exact List.mem_cons_self _ _
          · exact Or.inr (List.mem_cons_of_mem _ hm)
        · rw [if_neg hx]
          rcases ih acc with he | hm
          · exact Or.inl he
          · exact Or.inr (List.mem_cons_of_mem _ hm)
    rcases haux rest q with he | hm
    · rw [← h, he]; exact List.mem_cons_self _ _
    · rw [← h]; exact List.mem_cons_of_mem _ hm

/-- `extractOne` with an empty query over word-bearing choices returns either
nothing or some choice with score 0. -/
theorem extractOne_empty_query (choices : List String)
    (hcs : ∀ c ∈ choices, c.data.any isWordChar = true) :
    extractOne "" choices = none ∨ ∃ c, extractOne "" choices = some (c, 0) := by
  rcases hE : extractOne "" choices with _ | ⟨c, sc⟩
  · exact Or.inl rfl
  · right
    refine ⟨c, ?_⟩
    have hmem := maxByFirst_mem _ _ hE
    rw [List.mem_map] at hmem
    obtain ⟨c', hc', heq⟩ := hmem
    have hc'' : c' = c := congrArg Prod.fst heq
    have hsc : tokenSortScore (fullProcess "") c' = sc := congrArg Prod.snd heq
    rw [score_empty_query c' (hcs c' hc')] at hsc
    have hsc' : sc = 0 := hsc.symm
    rw [hsc']

theorem matchVariationsFuzzy_empty (m : Matcher) (t : Int) (ht : 1 ≤ t)
    (hkeys : ∀ p ∈ m.variations, p.1.data.any isWordChar = true) :
    matchVariationsFuzzy m "" t = (none, 0) := by
  unfold matchVariationsFuzzy
  have hcs : ∀ c ∈ m.variations.map (·.1), c.data.any isWordChar = true := by
    intro c hc
    rw [List.mem_map] at hc
    obtain ⟨p, hp, rfl⟩ := hc
    exact hkeys p hp
  rcases extractOne_empty_query (m.variations.map (·.1)) hcs with hE | ⟨c, hE⟩
  · rw [hE]
  · simp only [hE]
    rw [if_neg (by omega)]

/-- C7: for a catalog whose city names (and hence variation keys) contain at
least one word character, and any threshold at least 1, a null, empty or
whitespace-only location input normalizes to the empty string and resolves to
`(null, 0)` (total functions: no exception is possible). -/
theorem spec_c7_blank_input_no_match (m : Matcher) (t : Int) (loc : Option String)
    (ht : 1 ≤ t)
    (hnames : ∀ n ∈ m.cityNames, n.data.any isWordChar = true)
    (hkeys : ∀ p ∈ m.variations, p.1.data.any isWordChar = true)
    (hblank : loc = none ∨ loc = some "" ∨ ∃ s, loc = some s ∧ pyStrip s = "") :
    cleanLocation loc = "" ∧ matchLocationToCity m loc t = (none, 0) := by
  rcases hblank with h | h | ⟨s, h, hstrip⟩
  · subst h; exact ⟨rfl, rfl⟩
  · subst h; exact ⟨rfl, rfl⟩
  · subst h
    have hclean : cleanLocationStr s = "" := by
      unfold cleanLocationStr
      rw [if_pos]
      simp [hstrip]
    refine ⟨by simpa [cleanLocation] using hclean, ?_⟩
    by_cases hs : (s == "") = true
    · simp [matchLocationToCity, hs]
    · simp only [matchLocationToCity, hs, Bool.false_eq_true, if_false]
      have hextract : extractCityFromLocation s = "" := by
        unfold extractCityFromLocation
        rw [hclean]
        rfl
      unfold matchCityCore
      rw [hextract]
      have hlook : pyDictGet m.variations "" = none := by
        unfold pyDictGet
        rw [List.find?_eq_none.mpr]
        · rfl
        · intro p hp hb
          have hk := hkeys p hp
          have hp1 : p.1 = "" := by simpa using hb
          rw [hp1] at hk
          exact absurd hk (by decide)
      rw [hlook]
      rcases extractOne_empty_query m.cityNames hnames with hE | ⟨c, hE⟩
      · rw [hE]
        exact matchVariationsFuzzy_empty m t ht hkeys
      · simp only [hE]
        rw [if_neg (by omega)]
        exact matchVariationsFuzzy_empty m t ht hkeys

/-- C7, witness: the whitespace-only input "   " on the default catalog at
threshold 80 cleans to "" and resolves to `(null, 0)`. -/
theorem spec_c7_blank_input_no_match_witness :
    cleanLocation (some "   ") = "" ∧
      matchLocationToCity defaultMatcher (some "   ") 80 = (none, 0) :=
  spec_c7_blank_input_no_match defaultMatcher 80 (some "   ") (by norm_num)
    (by decide) (by decide)
    (Or.inr (Or.inr ⟨"   ", rfl, by decide⟩))

/-! ### Claim C10: idempotence of normalization -/

/-- The binary relation "not two whitespace characters in a row". -/
def WsR (a b : Char) : Prop := ¬(isPySpace a = true ∧ isPySpace b = true)

theorem wsr_symm (a b : Char) (h : WsR a b) : WsR b a := fun ⟨x, y⟩ => h ⟨y, x⟩

/-- A character of a cleaned string: a lowercase-fixed word character or a
plain space. -/
def CanonChar (c : Char) : Prop := (isWordChar c = true ∧ lowerChar c = c) ∨ c = ' '

theorem lowerChar_idem (c : Char) : lowerChar (lowerChar c) = lowerChar c := by
  unfold lowerChar
  rcases hf : caseTable.find? (fun p => p.1 == c) with _ | p
  · simp only [hf]
  · simp only [hf]
    have hp : p ∈ caseTable := List.mem_of_find?_eq_some hf
    fin_cases hp <;> decide

theorem map_fix {α : Type} (f : α → α) (l : List α) (h : ∀ c ∈ l, f c = c) :
    l.map f = l := by
  induction l with
  | nil => rfl
  | cons a rest ih =>
    rw [List.map_cons, h a (List.mem_cons_self _ _), ih (fun c hc => h c (List.mem_cons_of_mem _ hc))]

theorem takeWhile_fix (p : Char → Bool) (l : List Char) (h : ∀ c ∈ l, p c = true) :
    l.takeWhile p = l := by
  induction l with
  | nil => rfl
  | cons a rest ih =>
    rw [List.takeWhile_cons_of_pos (h a (List.mem_cons_self _ _)),
      ih (fun c hc => h c (List.mem_cons_of_mem _ hc))]

theorem dropWhile_fix (p : Char → Bool) (l : List Char)
    (h : ∀ c, l.head? = some c → p c = false) : l.dropWhile p = l := by
  cases l with
  | nil => rfl
  | cons a rest =>
    rw [List.dropWhile_cons_of_neg]
    rw [h a rfl]
    simp

theorem strip_fix (l : List Char)
    (hh : ∀ c, l.head? = some c → isPySpace c = false)
    (hl : ∀ c, l.getLast? = some c → isPySpace c = false) : pyStripList l = l := by
  unfold pyStripList
  rw [dropWhile_fix _ l hh]
  rw [dropWhile_fix _ l.reverse (fun c hc => hl c (by rwa [List.head?_reverse] at hc))]
  exact List.reverse_reverse l

theorem collapseWs_cons_cons (c d : Char) (rest : List Char) :
    collapseWs (c :: d :: rest)
      = if isPySpace c && isPySpace d then collapseWs (d :: rest)
        else (if isPySpace c then ' ' else c) :: collapseWs (d :: rest) := rfl

theorem collapseWs_eq_self : ∀ (l : List Char),
    (∀ c ∈ l, isPySpace c = false ∨ c = ' ') →
    List.Chain' WsR l →
    collapseWs l = l := by
  intro l
  induction l with
  | nil => intro _ _; rfl
  | cons c tail ih =>
    intro hgood hch
    cases tail with
    | nil =>
      by_cases hc : isPySpace c = true
      · rcases hgood c (List.mem_cons_self _ _) with hf | hsp
        · rw [hc] at hf; cases hf
        · subst hsp; rfl
      · simp [collapseWs, hc]
    | cons d rest =>
      have hch' := List.chain'_cons'.mp hch
      have hR : WsR c d := hch'.1 d rfl
      have hcd : (isPySpace c && isPySpace d) = false := by
        cases hwc : isPySpace c <;> cases hwd : isPySpace d <;> simp_all [WsR]
      have hc_fix : (if isPySpace c then ' ' else c) = c := by
        by_cases hc : isPySpace c = true
        · rcases hgood c (List.mem_cons_self _ _) with hf | hsp
          · rw [hc] at hf; cases hf
          · rw [if_pos hc, hsp]
        · rw [if_neg hc]
      rw [collapseWs_cons_cons, hcd]
      simp only [Bool.false_eq_true, if_false]
      rw [hc_fix]
      congr 1
      exact ih (fun x hx => hgood x (List.mem_cons_of_mem _ hx)) hch'.2

theorem collapseWs_chars : ∀ (l : List Char) (c : Char), c ∈ collapseWs l →
    (c ∈ l ∧ isPySpace c = false) ∨ c = ' ' := by
  intro l
  induction l with
  | nil => intro c hc; simp [collapseWs] at hc
  | cons a tail ih =>
    intro c hc
    cases tail with
    | nil =>
      by_cases ha : isPySpace a = true
      · simp [collapseWs, ha] at hc
        exact Or.inr hc
      · simp [collapseWs, ha] at hc
        subst hc
        exact Or.inl ⟨List.mem_cons_self _ _, by simpa using ha⟩
    | cons d rest =>
      by_cases had : (isPySpace a && isPySpace d) = true
      · have heq : collapseWs (a :: d :: rest) = collapseWs (d :: rest) := by
          rw [collapseWs_cons_cons, if_pos had]
        rw [heq] at hc
        rcases ih c hc with ⟨hm, hw⟩ | hsp
        · exact Or.inl ⟨List.mem_cons_of_mem _ hm, hw⟩
        · exact Or.inr hsp
      · have heq : collapseWs (a :: d :: rest)
            = (if isPySpace a then ' ' else a) :: collapseWs (d :: rest) := by
          rw [collapseWs_cons_cons, if_neg had]
        rw [heq] at hc
        rcases List.mem_cons.mp hc with rfl | hm
        · by_cases ha : isPySpace a = true
          · rw [if_pos ha]
            exact Or.inr rfl
          · rw [if_neg ha]
            exact Or.inl ⟨List.mem_cons_self _ _, by simpa using ha⟩
        · rcases ih c hm with ⟨hm', hw⟩ | hsp
          · exact Or.inl ⟨List.mem_cons_of_mem _ hm', hw⟩
          · exact Or.inr hsp

theorem collapseWs_head (d : Char) (rest : List Char) (hd : isPySpace d = false) :
    (collapseWs (d :: rest)).head? = some d := by
  cases rest with
  | nil => simp [collapseWs, hd]
  | cons e rest2 =>
    rw [collapseWs_cons_cons,
      if_neg (by rw [show (isPySpace d && isPySpace e) = false from by rw [hd]; rfl]; simp)]
    simp [hd]

theorem collapseWs_chain : ∀ (l : List Char), List.Chain' WsR (collapseWs l) := by
  intro l
  induction l with
  | nil => simp [collapseWs]
  | cons c tail ih =>
    cases tail with
    | nil =>
      by_cases hc : isPySpace c = true <;> simp [collapseWs, hc]
    | cons d rest =>
      by_cases hcd : (isPySpace c && isPySpace d) = true
      · have heq : collapseWs (c :: d :: rest) = collapseWs (d :: rest) := by
          rw [collapseWs_cons_cons, if_pos hcd]
        rw [heq]
        exact ih
      · have heq : collapseWs (c :: d :: rest)
            = (if isPySpace c then ' ' else c) :: collapseWs (d :: rest) := by
          rw [collapseWs_cons_cons, if_neg hcd]
        rw [heq]
        rw [List.chain'_cons']
        refine ⟨?_, ih⟩
        intro y hy
        by_cases hd : isPySpace d = true
        · have hc : isPySpace c = false := by
            cases hwc : isPySpace c
            · rfl
            · rw [hwc, hd] at hcd; simp at hcd
          rw [if_neg (by simp [hc])]
          intro hcon
          rw [hc] at hcon
          exact absurd hcon.1 (by simp)
        · have hh := collapseWs_head d rest (by simpa using hd)
          rw [hh] at hy
          have hyd : y = d := by
            have := hy
            simp at this
            exact this.symm
          subst hyd
          intro hcon
          exact absurd hcon.2 (by simpa using hd)

theorem head?_dropWhile_not (p : Char → Bool) (l : List Char) :
    ∀ c, (l.dropWhile p).head? = some c → p c = false := by
  induction l with
  | nil => intro c hc; cases hc
  | cons a rest ih =>
    intro c hc
    by_cases pa : p a = true
    · rw [List.dropWhile_cons_of_pos pa] at hc
      exact ih c hc
    · rw [List.dropWhile_cons_of_neg (by simpa using pa)] at hc
      have : a = c := by simpa using hc
      subst this
      simpa using pa

theorem getLast?_dropWhile (p : Char → Bool) (l : List Char) (h : l.dropWhile p ≠ []) :
    (l.dropWhile p).getLast? = l.getLast? := by
  induction l with
  | nil => exact absurd rfl h
  | cons a rest ih =>
    by_cases pa : p a = true
    · rw [List.dropWhile_cons_of_pos pa] at h ⊢
      have hrest : rest ≠ [] := by
        intro he
        rw [he] at h
        exact h rfl
      rw [ih h]
      cases rest with
      | nil => exact absurd rfl hrest
      | cons b rest2 => rw [List.getLast?_cons_cons]
    · rw [List.dropWhile_cons_of_neg (by simpa using pa)]

theorem pyStripList_last (l : List Char) (c : Char)
    (h : (pyStripList l).getLast? = some c) : isPySpace c = false := by
  unfold pyStripList at h
  rw [List.getLast?_reverse] at h
  exact head?_dropWhile_not _ _ c h

theorem pyStripList_head (l : List Char) (c : Char)
    (h : (pyStripList l).head? = some c) : isPySpace c = false := by
  unfold pyStripList at h
  rw [List.head?_reverse] at h
  have hne : (l.dropWhile isPySpace).reverse.dropWhile isPySpace ≠ [] := by
    intro he
    rw [he] at h
    cases h
  rw [getLast?_dropWhile _ _ hne, List.getLast?_reverse] at h
  exact head?_dropWhile_not _ _ c h

theorem mem_pyStripList (l : List Char) (c : Char) (h : c ∈ pyStripList l) : c ∈ l := by
  unfold pyStripList at h
  rw [List.mem_reverse] at h
  have h1 := (List.dropWhile_suffix (l := (l.dropWhile isPySpace).reverse) isPySpace).sublist.subset h
  rw [List.mem_reverse] at h1
  exact (List.dropWhile_suffix isPySpace).sublist.subset h1

theorem chain_pyStripList (l : List Char) (h : List.Chain' WsR l) :
    List.Chain' WsR (pyStripList l) := by
  unfold pyStripList
  have h1 : List.Chain' WsR (l.dropWhile isPySpace) := h.suffix (List.dropWhile_suffix _)
  have h2 : List.Chain' WsR (l.dropWhile isPySpace).reverse :=
    (List.chain'_reverse).mpr (h1.imp (fun a b hab => wsr_symm a b hab))
  have h3 : List.Chain' WsR ((l.dropWhile isPySpace).reverse.dropWhile isPySpace) :=
    h2.suffix (List.dropWhile_suffix _)
  exact (List.chain'_reverse).mpr (h3.imp (fun a b hab => wsr_symm a b hab))

theorem mem_subPunct (l : List Char) (c : Char) (h : c ∈ subPunct l) :
    (c ∈ l ∧ (isWordChar c || isPySpace c) = true) ∨ c = ' ' := by
  unfold subPunct at h
  rw [List.mem_map] at h
  obtain ⟨c', hc', heq⟩ := h
  by_cases hw : (isWordChar c' || isPySpace c') = true
  · rw [if_pos hw] at heq
    subst heq
    exact Or.inl ⟨hc', hw⟩
  · rw [if_neg hw] at heq
    exact Or.inr heq.symm

theorem mem_lowerList_fixed (l : List Char) (c : Char) (h : c ∈ lowerList l) :
    lowerChar c = c := by
  unfold lowerList at h
  rw [List.mem_map] at h
  obtain ⟨c', _, heq⟩ := h
  rw [← heq]
  exact lowerChar_idem c'

/-- Every character of a cleaned string is a lowercase-fixed word character
or a single space. -/
theorem gClean_canon_chars (l : List Char) (c : Char) (h : c ∈ gClean l) : CanonChar c := by
  unfold gClean at h
  have hz := mem_pyStripList _ _ h
  rcases collapseWs_chars _ c hz with ⟨hx, hnw⟩ | hsp
  · rcases mem_subPunct _ c hx with ⟨hv, hws⟩ | hsp'
    · left
      have hword : isWordChar c = true := by
        rcases (Bool.or_eq_true _ _).mp hws with hw | hs
        · exact hw
        · rw [hs] at hnw; cases hnw
      exact ⟨hword, mem_lowerList_fixed _ c hv⟩
    · exact Or.inr hsp'
  · exact Or.inr hsp

theorem gClean_chain (l : List Char) : List.Chain' WsR (gClean l) :=
  chain_pyStripList _ (collapseWs_chain _)

/-- Applying the app-level cleaning stages to an already-cleaned string is
the identity. -/
theorem gClean_fix (y : List Char)
    (h1 : ∀ c ∈ y, CanonChar c) (h2 : List.Chain' WsR y)
    (h3 : ∀ c, y.head? = some c → isPySpace c = false)
    (h4 : ∀ c, y.getLast? = some c → isPySpace c = false) : gClean y = y := by
  have hstrip : pyStripList y = y := strip_fix y h3 h4
  unfold gClean
  rw [hstrip]
  have htake : y.takeWhile (fun c => c != ',') = y := by
    apply takeWhile_fix
    intro c hc
    rcases h1 c hc with ⟨hw, _⟩ | hsp
    · simp only [bne_iff_ne, ne_eq, decide_eq_true_eq]
      intro he
      rw [he] at hw
      exact absurd hw (by decide)
    · rw [hsp]
      decide
  rw [htake]
  have hlower : lowerList y = y := by
    apply map_fix
    intro c hc
    rcases h1 c hc with ⟨_, hlo⟩ | hsp
    · exact hlo
    · rw [hsp]; decide
  rw [show lowerList y = List.map lowerChar y from rfl] at hlower
  rw [show lowerList y = List.map lowerChar y from rfl, hlower]
  have hsub : subPunct y = y := by
    apply map_fix
    intro c hc
    rcases h1 c hc with ⟨hw, _⟩ | hsp
    · rw [if_pos (by rw [hw]; rfl)]
    · rw [hsp]; decide
  rw [show subPunct y = List.map (fun c => if isWordChar c || isPySpace c then c else ' ') y from rfl] at hsub
  rw [show subPunct y = List.map (fun c => if isWordChar c || isPySpace c then c else ' ') y from rfl, hsub]
  have hcol : collapseWs y = y := by
    apply collapseWs_eq_self y _ h2
    intro c hc
    rcases h1 c hc with ⟨hw, _⟩ | hsp
    · exact Or.inl (word_not_space c hw)
    · exact Or.inr hsp
  rw [hcol, hstrip]

/-- C10 (amended): the app-level `clean_location` is idempotent — cleaning an
already-cleaned string returns it unchanged.  This is the identity the
pipeline relies on: `process_job_data` stores `clean_location(location)` and
`match_location` cleans that string again.  (The matcher-level extraction of
`location_matcher.py` is *not* idempotent: see the counterexample.) -/
theorem spec_c10_app_clean_idempotent (s : String) :
    appCleanLocation (appCleanLocation s) = appCleanLocation s := by
  show (⟨gClean (gClean s.data)⟩ : String) = ⟨gClean s.data⟩
  rw [gClean_fix (gClean s.data) (fun c hc => gClean_canon_chars s.data c hc)
    (gClean_chain s.data)
    (fun c hc => pyStripList_head _ c (by simpa [gClean] using hc))
    (fun c hc => pyStripList_last _ c (by simpa [gClean] using hc))]

/-- C10, counterexample to the claim as stated for the matcher-level
normalization: on "united co states" the first cleaning removes the
word-bounded "co" and collapses the gap, producing "united states"; cleaning
that output again matches the alternative "united states" and erases it.  So
`_extract_city_from_location` is not idempotent. -/
theorem spec_c10_counterexample :
    extractCityFromLocation "united co states" = "united states" ∧
      extractCityFromLocation (extractCityFromLocation "united co states") = "" ∧
      extractCityFromLocation (extractCityFromLocation "united co states")
        ≠ extractCityFromLocation "united co states" := by decide

end JobTracker





